import Mathlib

/-!
Verification of the github-scanner policy evaluation and verdict-aggregation
engine, shallowly embedded from the Go sources.

The embedding covers:
* `evaluatePolicy` (server side): turning an OPA result set into an
  allow/deny/error verdict;
* `ScanOrganization` / `scanRepository` / `FetchRepositoryPermissions`
  (server side): building per-repository access records and running the
  verdict resolver over them;
* the two gRPC client variants of `invokePolicyScan` / `printFinalSummary`:
  the counting variant (`PolicySummary` with `FailureCount`) and the
  stricter variant (`PolicySummary` with boolean `Failure` and the textual
  error-marker check).

External effects (the GitHub API, the OPA engine run itself, gRPC transport)
are modelled as explicit inputs: each fallible fetch is an `Except` value and
the oracle call outcome is a constructor of `OracleOutcome`.
-/

namespace GithubScanner

/-- A JSON-like value as produced by the OPA evaluation: the Go code only
distinguishes booleans, maps (`map[string]interface{}`) and everything else. -/
inductive Value where
  | bool (b : Bool)
  | str (s : String)
  | num (n : Int)
  | map (m : List (String × Value))
  | null

/-- Outcome of the Go function `evaluatePolicy`: `(bool, error)` where a
non-nil error carries a message. `ok b` is `(b, nil)`, `err m` is
`(false, error(m))`. -/
inductive EvalResult where
  | ok (b : Bool)
  | err (msg : String)
deriving DecidableEq, Repr

/-- Go `policyResults["deny"].(bool)`: look the key up in the decoded map and
type-assert to `bool`; the assertion yields `exists = false` both when the key
is absent and when its value is not a boolean. -/
def getSignal (m : List (String × Value)) (key : String) : Option Bool :=
  match m.lookup key with
  | some (Value.bool b) => some b
  | _ => none

/-- The result-processing part of `evaluatePolicy`: `rs` is the OPA result
set, one list of expression values per result.  Mirrors the Go code: when
`len(rs) > 0 && len(rs[0].Expressions) > 0`, `rs[0].Expressions[0].Value`
must be a map (else the "invalid policy evaluation result format" error);
a present-and-true "deny" wins, then a present-and-true "allow"; everything
else (including an empty result set) falls through to the default deny. -/
def evaluatePolicyResult (rs : List (List Value)) : EvalResult :=
  match rs with
  | (v :: _) :: _ =>
    match v with
    | Value.map m =>
      match getSignal m "deny" with
      | some true => EvalResult.ok false
      | _ =>
        match getSignal m "allow" with
        | some true => EvalResult.ok true
        | _ => EvalResult.ok false
    | _ => EvalResult.err "invalid policy evaluation result format"
  | _ => EvalResult.ok false

/-- The possible outcomes of the OPA calls inside `evaluatePolicy`:
`PrepareForEval` may fail, `Eval` may fail, or a result set is returned. -/
inductive OracleOutcome where
  | prepareError (msg : String)
  | evalError (msg : String)
  | result (rs : List (List Value))

/-- Full `evaluatePolicy`: the two OPA failure modes are wrapped with the
messages the Go code uses, a returned result set is processed by
`evaluatePolicyResult`. -/
def evaluatePolicy (oracle : OracleOutcome) : EvalResult :=
  match oracle with
  | OracleOutcome.prepareError msg => EvalResult.err ("failed to prepare rego query: " ++ msg)
  | OracleOutcome.evalError msg => EvalResult.err ("failed to evaluate policy: " ++ msg)
  | OracleOutcome.result rs => evaluatePolicyResult rs

/-- Character-list prefix test, the base of the substring check below. -/
def isPrefixCheck : List Char → List Char → Bool
  | [], _ => true
  | _ :: _, [] => false
  | a :: as, b :: bs => a == b && isPrefixCheck as bs

/-- Character-list substring test: `sub` occurs contiguously in the list. -/
def isSubstrCheck (sub : List Char) : List Char → Bool
  | [] => isPrefixCheck sub []
  | b :: bs => isPrefixCheck sub (b :: bs) || isSubstrCheck sub bs

/-- Go `strings.Contains(s, sub)`. -/
def strContains (s sub : String) : Bool := isSubstrCheck sub.data s.data

/-- Go `strings.ToLower` (character-wise, which agrees on the ASCII labels the
scanner compares). -/
def strToLower (s : String) : String := String.mk (s.data.map Char.toLower)

/-- One entry of the repository access list (Go `RepositoryPermissions`). -/
structure RepositoryPermissions where
  username : String
  role : String
  source : String
deriving DecidableEq, Repr

/-- The canonical per-repository record (Go `RepositoryInfo` of the scanning
server). `privateFlag` embeds the Go field `Private` (`private` is reserved
in Lean). -/
structure RepositoryInfo where
  name : String
  fullName : String
  owner : String
  visibility : String
  privateFlag : Bool
  description : String
  repoURL : String
  defaultBranch : String
  lastUpdated : String
  permissions : List RepositoryPermissions
  scanResult : String
deriving DecidableEq, Repr

/-- The Go zero value `RepositoryInfo{}` returned when the detail fetch for a
repository fails. -/
def emptyRepositoryInfo : RepositoryInfo :=
  ⟨"", "", "", "", false, "", "", "", "", [], ""⟩

/-- The fields of a `github.Repository` that `NormalizeRepoData` reads. -/
structure RepoDetails where
  name : String
  fullName : String
  ownerLogin : String
  visibility : String
  privateFlag : Bool
  description : String
  htmlURL : String
  defaultBranch : String
  updatedAt : String
deriving DecidableEq, Repr

/-- A GitHub user as consumed by the scanner: only the login is read. -/
structure GHUser where
  login : String
deriving DecidableEq, Repr

/-- A GitHub team as consumed by the scanner: only the slug is read. -/
structure GHTeam where
  slug : String
deriving DecidableEq, Repr

/-- The outcomes of the GitHub API calls `FetchRepositoryPermissions`
performs: each fallible fetch is an `Except` with its error message. -/
structure GithubData where
  collaborators : Except String (List GHUser)
  teams : Except String (List GHTeam)
  teamMembers : String → Except String (List GHUser)
  permissionLevel : String → Except String String

/-- Write `k ↦ v` into an association list with Go-map semantics: the new
binding replaces any previous binding of `k`. -/
def mapInsert (m : List (String × String)) (k v : String) : List (String × String) :=
  m.filter (fun p => p.1 != k) ++ [(k, v)]

/-- The `teamMembers` map of `FetchRepositoryPermissions`: for each team with
access, list its members (skipping teams whose member fetch fails) and record
`login ↦ slug`. -/
def buildTeamMembers (gh : GithubData) (teams : List GHTeam) : List (String × String) :=
  teams.foldl
    (fun m team =>
      match gh.teamMembers team.slug with
      | Except.error _ => m
      | Except.ok members =>
          members.foldl (fun m member => mapInsert m member.login team.slug) m)
    []

/-- The team list actually iterated: a failed `ListTeams` call only logs, so
the loop runs over the nil slice. -/
def fetchedTeams (gh : GithubData) : List GHTeam :=
  match gh.teams with
  | Except.error _ => []
  | Except.ok ts => ts

/-- The permission entry built for one collaborator whose permission-level
lookup returned `role`, given the username-to-team map. -/
def entryFor (teamMembers : List (String × String)) (collab : GHUser) (role : String) :
    RepositoryPermissions :=
  { username := collab.login
    role := role
    source :=
      match teamMembers.lookup collab.login with
      | some team => "team:" ++ team
      | none => "user" }

/-- Go `FetchRepositoryPermissions`: a failed collaborator fetch returns nil;
otherwise each collaborator's permission level is looked up (failures skip
that collaborator) and the entry's source is `team:<slug>` when the
username-to-team map knows the login, else `user`. -/
def FetchRepositoryPermissions (gh : GithubData) : List RepositoryPermissions :=
  match gh.collaborators with
  | Except.error _ => []
  | Except.ok collaborators =>
    let teamMembers := buildTeamMembers gh (fetchedTeams gh)
    collaborators.foldl
      (fun perms collab =>
        match gh.permissionLevel collab.login with
        | Except.error _ => perms
        | Except.ok role => perms ++ [entryFor teamMembers collab role])
      []

/-- Go `NormalizeRepoData`: copy the fetched repository fields and the
pre-fetched permissions into a `RepositoryInfo` (the `ScanResult` field stays
at its zero value until the aggregator writes it). -/
def NormalizeRepoData (repo : RepoDetails) (permissions : List RepositoryPermissions) :
    RepositoryInfo :=
  { name := repo.name
    fullName := repo.fullName
    owner := repo.ownerLogin
    visibility := repo.visibility
    privateFlag := repo.privateFlag
    description := repo.description
    repoURL := repo.htmlURL
    defaultBranch := repo.defaultBranch
    lastUpdated := repo.updatedAt
    permissions := permissions
    scanResult := "" }

/-- Go `scanRepository`: a failed `Repositories.Get` yields the zero record,
otherwise the detail record plus the fetched permissions are normalized. -/
def scanRepository (detail : Except String RepoDetails) (gh : GithubData) : RepositoryInfo :=
  match detail with
  | Except.error _ => emptyRepositoryInfo
  | Except.ok d => NormalizeRepoData d (FetchRepositoryPermissions gh)

/-- The `ScanResult` string the scan loop writes for one policy-evaluation
outcome: an error maps to "Rego Parsing Error" when the message mentions
`rego_parse_error`, else to the raw message; otherwise "Success"/"Failure". -/
def assignScanResult (r : EvalResult) : String :=
  match r with
  | EvalResult.err msg =>
      if strContains msg "rego_parse_error" then "Rego Parsing Error" else msg
  | EvalResult.ok true => "Success"
  | EvalResult.ok false => "Failure"

/-- One iteration of the `ScanOrganization` loop: the built record is handed
to `evaluatePolicy` (whose external call outcome is `oracle`) and the verdict
is written onto its `ScanResult` field. -/
def processRepository (repoInfo : RepositoryInfo) (oracle : OracleOutcome) : RepositoryInfo :=
  { repoInfo with scanResult := assignScanResult (evaluatePolicy oracle) }

/-- The per-repository inputs of one organization scan: the detail-fetch
outcome, the permission-fetch outcomes, and the oracle call outcome. -/
structure RepoScanInput where
  detail : Except String RepoDetails
  gh : GithubData
  oracle : OracleOutcome

/-- Go `ScanOrganization`: every listed repository is scanned, evaluated and
appended to the returned slice. -/
def ScanOrganization (inputs : List RepoScanInput) : List RepositoryInfo :=
  inputs.map (fun i => processRepository (scanRepository i.detail i.gh) i.oracle)

/-- The part of a `pb.RepositoryInfo` the gRPC clients consult when
summarising: only the `ScanResult` label (plus the name for display). -/
structure PBRepo where
  fullName : String
  scanResult : String
deriving DecidableEq, Repr

/-- A `pb.PolicyResponse`: an optional top-level error string and the
per-repository records. -/
structure PolicyResponse where
  error : String
  repositories : List PBRepo
deriving DecidableEq, Repr

/-- The counting client's `PolicySummary` (fields `Policy`, `Error`,
`ErrorMessage`, `Success`, `FailureCount`). -/
structure PolicySummaryCount where
  policy : String
  error : Bool
  errorMessage : String
  success : Bool
  failureCount : Nat
deriving DecidableEq, Repr

/-- The stricter client's `PolicySummary` (fields `Policy`, `Success`,
`Failure`, `Error`, `ErrorMessage`). -/
structure PolicySummaryStrict where
  policy : String
  success : Bool
  failure : Bool
  error : Bool
  errorMessage : String
deriving DecidableEq, Repr

/-- Outcome of one `client.ScanRepositories` call in the counting client:
a transport error, a nil response, or a response. -/
inductive RPCOutcome where
  | rpcError (msg : String)
  | nilResponse
  | response (res : PolicyResponse)

/-- The counting client's tally loop: `switch strings.ToLower(ScanResult)`,
"failure" bumps the count, "success" sets the flag, anything else is
ignored. -/
def tallyCount (repos : List PBRepo) (s : PolicySummaryCount) : PolicySummaryCount :=
  repos.foldl
    (fun s r =>
      if strToLower r.scanResult == "failure" then { s with failureCount := s.failureCount + 1 }
      else if strToLower r.scanResult == "success" then { s with success := true }
      else s)
    s

/-- One iteration of the counting client's `invokePolicyScan` loop: transport
errors and nil responses become error summaries, a response-level error is
copied, otherwise the repositories are tallied. -/
def makeSummaryCount (policy : String) (out : RPCOutcome) : PolicySummaryCount :=
  match out with
  | RPCOutcome.rpcError msg =>
      { policy := policy.trim, error := true, errorMessage := msg,
        success := false, failureCount := 0 }
  | RPCOutcome.nilResponse =>
      { policy := policy.trim, error := true, errorMessage := "Nil response from server",
        success := false, failureCount := 0 }
  | RPCOutcome.response res =>
      if res.error != "" then
        { policy := policy.trim, error := true, errorMessage := res.error,
          success := false, failureCount := 0 }
      else
        tallyCount res.repositories
          { policy := policy.trim, error := false, errorMessage := "",
            success := false, failureCount := 0 }

/-- The stricter client's textual error-marker check on one repository:
the lower-cased scan result contains "error" or "failed". -/
def containsErrorMarker (r : PBRepo) : Bool :=
  strContains (strToLower r.scanResult) "error" || strContains (strToLower r.scanResult) "failed"

/-- The stricter client's error-message computation: starting from the
transport/response error (or ""), the first repository carrying a textual
error marker appends `" | Scan Result: <label>"` and the loop breaks. -/
def strictErrorMessage (base : String) (repos : List PBRepo) : String :=
  match repos.find? containsErrorMarker with
  | some r => base ++ " | Scan Result: " ++ r.scanResult
  | none => base

/-- The stricter client's tally loop: "failure" sets `Failure`, "success"
sets `Success`. -/
def tallyStrict (repos : List PBRepo) (s : PolicySummaryStrict) : PolicySummaryStrict :=
  repos.foldl
    (fun s r =>
      if strToLower r.scanResult == "failure" then { s with failure := true }
      else if strToLower r.scanResult == "success" then { s with success := true }
      else s)
    s

/-- The stricter client's starting error message: the transport error when
the call failed, else the response-level error, else "". -/
def summaryBase (rpcErr : Option String) (res : PolicyResponse) : String :=
  match rpcErr with
  | some m => m
  | none => if res.error != "" then res.error else ""

/-- The tail of the stricter client's `invokePolicyScan` iteration once the
starting error message is computed: any non-empty error message (from
transport, response, or a marker-carrying repository) makes an error summary,
otherwise the scan results are tallied. -/
def makeSummaryStrictCore (policy base : String) (repos : List PBRepo) : PolicySummaryStrict :=
  if strictErrorMessage base repos != "" then
    { policy := policy.trim, success := false, failure := false,
      error := true, errorMessage := strictErrorMessage base repos }
  else
    tallyStrict repos
      { policy := policy.trim, success := false, failure := false,
        error := false, errorMessage := "" }

/-- One iteration of the stricter client's `invokePolicyScan` loop, given the
transport error (if any) and the response. -/
def makeSummaryStrict (policy : String) (rpcErr : Option String) (res : PolicyResponse) :
    PolicySummaryStrict :=
  makeSummaryStrictCore policy (summaryBase rpcErr res) res.repositories

/-- The terminal state `printFinalSummary` assigns to one summary (shared by
both client variants; the counting variant reports a failing-repository
count, the stricter one only a flag). -/
inductive SummaryState where
  | error (msg : String)
  | failureCount (n : Nat)
  | failure
  | success
  | noMatchError
deriving DecidableEq, Repr

/-- The counting client's `printFinalSummary` branch for one summary:
error, else positive failure count, else success, else the fail-closed
"ERROR (NO MATCHING CONDITION)". -/
def classifyCount (s : PolicySummaryCount) : SummaryState :=
  if s.error then SummaryState.error s.errorMessage
  else if s.failureCount > 0 then SummaryState.failureCount s.failureCount
  else if s.success then SummaryState.success
  else SummaryState.noMatchError

/-- The stricter client's `printFinalSummary` branch for one summary. -/
def classifyStrict (s : PolicySummaryStrict) : SummaryState :=
  if s.error then SummaryState.error s.errorMessage
  else if s.failure then SummaryState.failure
  else if s.success then SummaryState.success
  else SummaryState.noMatchError

/-- Number of repositories whose scan-result label is "failure" (after
lower-casing), the quantity the counting client's summary reports. -/
def failureLabelCount (repos : List PBRepo) : Nat :=
  repos.countP (fun r => strToLower r.scanResult == "failure")

/-- Whether some repository's scan-result label is "success" (after
lower-casing). -/
def hasSuccessLabel (repos : List PBRepo) : Bool :=
  repos.any (fun r => strToLower r.scanResult == "success")

/-- Whether some repository's scan-result label is "failure" (after
lower-casing). -/
def hasFailureLabel (repos : List PBRepo) : Bool :=
  repos.any (fun r => strToLower r.scanResult == "failure")

/-- Modelled from the spec's aggregation precedence, restricted to what the
counting client can observe: policy-level error first, else Failure with the
count of failing repositories, else Success when some repository succeeded,
else the fail-closed no-matching-condition error.  Used to compare the
code-derived summary against the spec's precedence order. -/
def specCountPrecedence (out : RPCOutcome) : SummaryState :=
  match out with
  | RPCOutcome.rpcError msg => SummaryState.error msg
  | RPCOutcome.nilResponse => SummaryState.error "Nil response from server"
  | RPCOutcome.response res =>
      if res.error != "" then SummaryState.error res.error
      else if failureLabelCount res.repositories > 0 then
        SummaryState.failureCount (failureLabelCount res.repositories)
      else if hasSuccessLabel res.repositories then SummaryState.success
      else SummaryState.noMatchError

/-- A GitHub-data input whose fetches all succeed with empty data; used to
evaluate the scan pipeline on concrete repositories. -/
def ghEmptyFetch : GithubData :=
  ⟨Except.ok [], Except.ok [], fun _ => Except.ok [], fun _ => Except.ok ""⟩

/-- A GitHub-data input with two collaborators: the permission-level lookup
succeeds for "alice" and fails for "bob". -/
def ghMixedPerm : GithubData :=
  ⟨Except.ok [⟨"alice"⟩, ⟨"bob"⟩], Except.ok [], fun _ => Except.ok [],
   fun login => if login == "alice" then Except.ok "admin" else Except.error "boom"⟩

/-- A GitHub-data input with one collaborator who is a member of the one
team with repository access, and a succeeding permission-level lookup. -/
def ghTeamData : GithubData :=
  ⟨Except.ok [⟨"alice"⟩], Except.ok [⟨"devs"⟩],
   fun _ => Except.ok [⟨"alice"⟩], fun _ => Except.ok "admin"⟩

/-- Two scan responses holding the same repositories in opposite orders, both
carrying textual error markers. -/
def strictResAB : PolicyResponse :=
  ⟨"", [⟨"org/a", "Error A"⟩, ⟨"org/b", "Error B"⟩]⟩

/-- The reversal of `strictResAB`. -/
def strictResBA : PolicyResponse :=
  ⟨"", [⟨"org/b", "Error B"⟩, ⟨"org/a", "Error A"⟩]⟩

/-- C1: deny present and true forces `ok false` (Denied), whatever else the
map holds. -/
theorem deny_true_forces_denied (m : List (String × Value)) (es : List Value)
    (rest : List (List Value)) (h : getSignal m "deny" = some true) :
    evaluatePolicyResult ((Value.map m :: es) :: rest) = EvalResult.ok false := by
  simp [evaluatePolicyResult, h]

theorem deny_true_forces_denied_check :
    evaluatePolicyResult [[Value.map [("deny", Value.bool true), ("allow", Value.bool true)]]]
      = EvalResult.ok false :=
  deny_true_forces_denied [("deny", Value.bool true), ("allow", Value.bool true)] [] []
    (by decide)

/-- Helper: a key bound to a non-boolean value fails the Go type assertion,
so `getSignal` reports it as absent. -/
theorem getSignal_eq_none_of_nonbool (m : List (String × Value)) (key : String)
    (v : Value) (hl : m.lookup key = some v) (hv : ∀ b, v ≠ Value.bool b) :
    getSignal m key = none := by
  unfold getSignal
  rw [hl]
  cases v with
  | bool b => exact absurd rfl (hv b)
  | str s => rfl
  | num n => rfl
  | map m => rfl
  | null => rfl

/-- C5: with deny absent or false, the verdict is Allowed exactly when allow
is present and boolean true; with neither signal true the default is Denied
(`ok false`), not an error. -/
theorem allow_decides_when_deny_not_true (m : List (String × Value)) (es : List Value)
    (rest : List (List Value)) (hd : getSignal m "deny" ≠ some true) :
    (evaluatePolicyResult ((Value.map m :: es) :: rest) = EvalResult.ok true
      ↔ getSignal m "allow" = some true)
    ∧ (getSignal m "allow" ≠ some true →
        evaluatePolicyResult ((Value.map m :: es) :: rest) = EvalResult.ok false) := by
  unfold evaluatePolicyResult
  rcases hden : getSignal m "deny" with _ | b
  · rcases hall : getSignal m "allow" with _ | b
    · simp [hden, hall]
    · cases b <;> simp [hden, hall]
  · cases b
    · rcases hall : getSignal m "allow" with _ | b
      · simp [hden, hall]
      · cases b <;> simp [hden, hall]
    · exact absurd hden hd

theorem allow_decides_when_deny_not_true_check :
    evaluatePolicyResult [[Value.map [("allow", Value.bool true)]]] = EvalResult.ok true :=
  (allow_decides_when_deny_not_true [("allow", Value.bool true)] [] []
    (by decide)).1.mpr (by decide)

/-- C10: a "deny" or "allow" key bound to a non-boolean value is treated as
absent: a non-boolean deny does not force Denied (a true allow still wins),
a non-boolean allow never produces Allowed, and with both signals non-boolean
the default Denied comes back with no error. -/
theorem nonbool_signals_treated_as_absent :
    (∀ (m : List (String × Value)) (es : List Value) (rest : List (List Value)) (dv : Value),
      m.lookup "deny" = some dv → (∀ b, dv ≠ Value.bool b) →
      getSignal m "allow" = some true →
      evaluatePolicyResult ((Value.map m :: es) :: rest) = EvalResult.ok true)
    ∧ (∀ (m : List (String × Value)) (es : List Value) (rest : List (List Value)) (av : Value),
      getSignal m "deny" ≠ some true →
      m.lookup "allow" = some av → (∀ b, av ≠ Value.bool b) →
      evaluatePolicyResult ((Value.map m :: es) :: rest) = EvalResult.ok false)
    ∧ (∀ (m : List (String × Value)) (es : List Value) (rest : List (List Value)) (dv av : Value),
      m.lookup "deny" = some dv → (∀ b, dv ≠ Value.bool b) →
      m.lookup "allow" = some av → (∀ b, av ≠ Value.bool b) →
      evaluatePolicyResult ((Value.map m :: es) :: rest) = EvalResult.ok false) := by
  refine ⟨?_, ?_, ?_⟩
  · intro m es rest dv hld hnb hall
    have hd : getSignal m "deny" = none := getSignal_eq_none_of_nonbool m "deny" dv hld hnb
    simp [evaluatePolicyResult, hd, hall]
  · intro m es rest av hd hla hnb
    have ha : getSignal m "allow" = none := getSignal_eq_none_of_nonbool m "allow" av hla hnb
    unfold evaluatePolicyResult
    rcases hden : getSignal m "deny" with _ | b
    · simp [hden, ha]
    · cases b
      · simp [hden, ha]
      · exact absurd hden hd
  · intro m es rest dv av hld hnbd hla hnba
    have hd : getSignal m "deny" = none := getSignal_eq_none_of_nonbool m "deny" dv hld hnbd
    have ha : getSignal m "allow" = none := getSignal_eq_none_of_nonbool m "allow" av hla hnba
    simp [evaluatePolicyResult, hd, ha]

theorem nonbool_signals_treated_as_absent_check :
    evaluatePolicyResult [[Value.map [("deny", Value.str "yes"), ("allow", Value.bool true)]]]
      = EvalResult.ok true :=
  nonbool_signals_treated_as_absent.1
    [("deny", Value.str "yes"), ("allow", Value.bool true)] [] [] (Value.str "yes")
    rfl
    (fun b h => by cases h)
    (by decide)

/-- C2 counterexample: on an empty result set (and on a result with zero
expressions) `evaluatePolicy` falls through to the default `ok false` — the
Denied verdict — instead of the EvaluationError the claim demands. -/
theorem empty_result_set_is_denied_not_error :
    evaluatePolicyResult [] = EvalResult.ok false
    ∧ evaluatePolicyResult [[]] = EvalResult.ok false := by
  constructor <;> rfl

/-- C2 amended: only a non-map first expression value is reported as the
"invalid policy evaluation result format" EvaluationError (never a Denied or
Allowed verdict); a result set with zero results or zero expressions instead
falls through to the default Denied. -/
theorem malformed_result_policy :
    (∀ (v : Value) (es : List Value) (rest : List (List Value)),
      (∀ m, v ≠ Value.map m) →
      evaluatePolicyResult ((v :: es) :: rest)
        = EvalResult.err "invalid policy evaluation result format")
    ∧ evaluatePolicyResult [] = EvalResult.ok false
    ∧ (∀ rest : List (List Value), evaluatePolicyResult ([] :: rest) = EvalResult.ok false) := by
  refine ⟨?_, rfl, fun rest => rfl⟩
  intro v es rest hv
  cases v with
  | bool b => rfl
  | str s => rfl
  | num n => rfl
  | map m => exact absurd rfl (hv m)
  | null => rfl

theorem malformed_result_policy_check :
    evaluatePolicyResult [[Value.str "oops"]]
      = EvalResult.err "invalid policy evaluation result format" :=
  malformed_result_policy.1 (Value.str "oops") [] [] (fun m h => by cases h)

/-- The counting tally loop computes exactly the failure-label count and the
success-label flag of the list it walks; no other summary field changes. -/
theorem tallyCount_eq (repos : List PBRepo) (s : PolicySummaryCount) :
    tallyCount repos s =
      { s with failureCount := s.failureCount + failureLabelCount repos,
               success := s.success || hasSuccessLabel repos } := by
  induction repos generalizing s with
  | nil => simp [tallyCount, failureLabelCount, hasSuccessLabel]
  | cons r rs ih =>
    obtain ⟨p, e, em, su, fc⟩ := s
    have hstep : tallyCount (r :: rs) ⟨p, e, em, su, fc⟩ =
        tallyCount rs
          (if strToLower r.scanResult == "failure" then ⟨p, e, em, su, fc + 1⟩
           else if strToLower r.scanResult == "success" then ⟨p, e, em, true, fc⟩
           else ⟨p, e, em, su, fc⟩) := rfl
    rw [hstep]
    by_cases hf : strToLower r.scanResult = "failure"
    · have hf' : (strToLower r.scanResult == "failure") = true := by simp [hf]
      have hs' : (strToLower r.scanResult == "success") = false := by simp [hf]
      rw [if_pos hf', ih]
      simp [failureLabelCount, hasSuccessLabel, List.countP_cons, List.any_cons, hf', hs']
      omega
    · have hf' : (strToLower r.scanResult == "failure") = false := by simp [hf]
      by_cases hs : strToLower r.scanResult = "success"
      · have hs' : (strToLower r.scanResult == "success") = true := by simp [hs]
        rw [if_neg (by simp [hf']), if_pos hs', ih]
        simp [failureLabelCount, hasSuccessLabel, List.countP_cons, List.any_cons, hf', hs']
      · have hs' : (strToLower r.scanResult == "success") = false := by simp [hs]
        rw [if_neg (by simp [hf']), if_neg (by simp [hs']), ih]
        simp [failureLabelCount, hasSuccessLabel, List.countP_cons, List.any_cons, hf', hs']

/-- C3 (amended): the counting client's summary state follows the precedence
policy-level error, else Failure carrying the count of failure-labelled
repositories, else Success when some repository is success-labelled, else the
no-matching-condition error (in particular on an empty repository list);
repository outcomes that are error strings are ignored by the tally rather
than forcing an Error summary. -/
theorem counting_summary_precedence (p : String) (out : RPCOutcome) :
    classifyCount (makeSummaryCount p out) = specCountPrecedence out := by
  cases out with
  | rpcError msg => rfl
  | nilResponse => rfl
  | response res =>
    by_cases he : res.error = ""
    · rw [makeSummaryCount, specCountPrecedence]
      rw [if_neg (by simp [he]), if_neg (by simp [he]), tallyCount_eq]
      simp [classifyCount, Nat.zero_add, Bool.false_or]
    · rw [makeSummaryCount, specCountPrecedence]
      rw [if_pos (by simp [he]), if_pos (by simp [he])]
      rfl

/-- C3 counterexample: a repository whose outcome is an error string (here
the server-written "failed to evaluate policy: boom") is ignored by the
counting tally, so next to one succeeding repository the summary is Success —
not the Error the claimed precedence demands for any repository-level
error. -/
theorem error_outcome_repo_yields_success_summary :
    classifyCount (makeSummaryCount "p"
        (RPCOutcome.response ⟨"", [⟨"org/r1", "failed to evaluate policy: boom"⟩,
                                   ⟨"org/r2", "Success"⟩]⟩))
      = SummaryState.success := by decide

/-- An existence check (`List.any`) only depends on the multiset of
elements. -/
theorem any_eq_of_perm {α : Type} {l l' : List α} (q : α → Bool) (h : l.Perm l') :
    l.any q = l'.any q := by
  cases hl' : l'.any q with
  | true =>
    rcases List.any_eq_true.mp hl' with ⟨a, ha, hqa⟩
    exact List.any_eq_true.mpr ⟨a, h.mem_iff.mpr ha, hqa⟩
  | false =>
    cases hl : l.any q with
    | false => rfl
    | true =>
      rcases List.any_eq_true.mp hl with ⟨a, ha, hqa⟩
      have : l'.any q = true := List.any_eq_true.mpr ⟨a, h.mem_iff.mp ha, hqa⟩
      rw [hl'] at this
      cases this

/-- The strict tally loop computes exactly the failure-label and
success-label flags of the list it walks; no other summary field changes. -/
theorem tallyStrict_eq (repos : List PBRepo) (s : PolicySummaryStrict) :
    tallyStrict repos s =
      { s with failure := s.failure || hasFailureLabel repos,
               success := s.success || hasSuccessLabel repos } := by
  induction repos generalizing s with
  | nil => simp [tallyStrict, hasFailureLabel, hasSuccessLabel]
  | cons r rs ih =>
    obtain ⟨p, su, fa, e, em⟩ := s
    have hstep : tallyStrict (r :: rs) ⟨p, su, fa, e, em⟩ =
        tallyStrict rs
          (if strToLower r.scanResult == "failure" then ⟨p, su, true, e, em⟩
           else if strToLower r.scanResult == "success" then ⟨p, true, fa, e, em⟩
           else ⟨p, su, fa, e, em⟩) := rfl
    rw [hstep]
    by_cases hf : strToLower r.scanResult = "failure"
    · have hf' : (strToLower r.scanResult == "failure") = true := by simp [hf]
      have hs' : (strToLower r.scanResult == "success") = false := by simp [hf]
      rw [if_pos hf', ih]
      simp [hasFailureLabel, hasSuccessLabel, List.any_cons, hf', hs']
    · have hf' : (strToLower r.scanResult == "failure") = false := by simp [hf]
      by_cases hs : strToLower r.scanResult = "success"
      · have hs' : (strToLower r.scanResult == "success") = true := by simp [hs]
        rw [if_neg (by simp [hf']), if_pos hs', ih]
        simp [hasFailureLabel, hasSuccessLabel, List.any_cons, hf', hs']
      · have hs' : (strToLower r.scanResult == "success") = false := by simp [hs]
        rw [if_neg (by simp [hf']), if_neg (by simp [hs']), ih]
        simp [hasFailureLabel, hasSuccessLabel, List.any_cons, hf', hs']

/-- The strict error message is never empty once a marker-carrying repository
was found: it then contains the literal " | Scan Result: ". -/
theorem append_scan_result_ne_empty (a x : String) :
    a ++ " | Scan Result: " ++ x ≠ "" := by
  intro h
  have hlen := congrArg String.length h
  have h16 : (" | Scan Result: " : String).length = 16 := rfl
  simp [String.length_append, h16] at hlen

/-- C4 counterexample: in the stricter client, two responses holding the same
repositories in opposite orders (both carrying textual error markers) produce
different summaries — the error message quotes whichever marked repository
comes first. -/
theorem strict_error_message_depends_on_order :
    strictResAB.repositories.Perm strictResBA.repositories
    ∧ (makeSummaryStrict "p" none strictResAB).errorMessage
        ≠ (makeSummaryStrict "p" none strictResBA).errorMessage := by
  constructor
  · exact List.Perm.swap _ _ _
  · decide

/-- C4 (amended): permuting the repository list never changes the counting
client's summary (state, failure count and message all agree); in the
stricter client the Error/Failure/Success flags are likewise
order-independent, but the error message may quote a different repository. -/
theorem summary_perm_invariance :
    (∀ (p e : String) (l l' : List PBRepo), l.Perm l' →
        makeSummaryCount p (RPCOutcome.response ⟨e, l⟩)
          = makeSummaryCount p (RPCOutcome.response ⟨e, l'⟩))
    ∧ (∀ (p : String) (rpcErr : Option String) (e : String) (l l' : List PBRepo), l.Perm l' →
        (makeSummaryStrict p rpcErr ⟨e, l⟩).error = (makeSummaryStrict p rpcErr ⟨e, l'⟩).error
        ∧ (makeSummaryStrict p rpcErr ⟨e, l⟩).failure
            = (makeSummaryStrict p rpcErr ⟨e, l'⟩).failure
        ∧ (makeSummaryStrict p rpcErr ⟨e, l⟩).success
            = (makeSummaryStrict p rpcErr ⟨e, l'⟩).success) := by
  constructor
  · intro p e l l' hperm
    by_cases he : e = ""
    · rw [makeSummaryCount, makeSummaryCount]
      rw [if_neg (by simp [he]), if_neg (by simp [he]), tallyCount_eq, tallyCount_eq]
      have hc : failureLabelCount l = failureLabelCount l' := hperm.countP_eq _
      have hs : hasSuccessLabel l = hasSuccessLabel l' := any_eq_of_perm _ hperm
      rw [hc, hs]
    · rw [makeSummaryCount, makeSummaryCount]
      rw [if_pos (by simp [he]), if_pos (by simp [he])]
  · intro p rpcErr e l l' hperm
    have hbase : summaryBase rpcErr ⟨e, l⟩ = summaryBase rpcErr ⟨e, l'⟩ := by
      cases rpcErr <;> rfl
    show (makeSummaryStrictCore p _ l).error = (makeSummaryStrictCore p _ l').error
      ∧ (makeSummaryStrictCore p _ l).failure = (makeSummaryStrictCore p _ l').failure
      ∧ (makeSummaryStrictCore p _ l).success = (makeSummaryStrictCore p _ l').success
    rw [hbase]
    generalize summaryBase rpcErr ⟨e, l'⟩ = base
    have hmark : l.any containsErrorMarker = l'.any containsErrorMarker :=
      any_eq_of_perm _ hperm
    cases hany : l'.any containsErrorMarker with
    | true =>
      have hanyl : l.any containsErrorMarker = true := by rw [hmark, hany]
      rcases List.any_eq_true.mp hany with ⟨r', hr', hm'⟩
      rcases List.any_eq_true.mp hanyl with ⟨r, hr, hm⟩
      rcases Option.isSome_iff_exists.mp (List.find?_isSome.mpr ⟨r, hr, hm⟩) with ⟨x, hx⟩
      rcases Option.isSome_iff_exists.mp (List.find?_isSome.mpr ⟨r', hr', hm'⟩) with ⟨x', hx'⟩
      rw [makeSummaryStrictCore, makeSummaryStrictCore, strictErrorMessage,
        strictErrorMessage, hx, hx']
      rw [if_pos (by simp [append_scan_result_ne_empty]),
          if_pos (by simp [append_scan_result_ne_empty])]
      exact ⟨rfl, rfl, rfl⟩
    | false =>
      have hanyl : l.any containsErrorMarker = false := by rw [hmark, hany]
      have hnone : l.find? containsErrorMarker = none := by
        apply List.find?_eq_none.mpr
        intro x hxmem hxmark
        have hcontra : l.any containsErrorMarker = true :=
          List.any_eq_true.mpr ⟨x, hxmem, hxmark⟩
        rw [hanyl] at hcontra
        cases hcontra
      have hnone' : l'.find? containsErrorMarker = none := by
        apply List.find?_eq_none.mpr
        intro x hxmem hxmark
        have hcontra : l'.any containsErrorMarker = true :=
          List.any_eq_true.mpr ⟨x, hxmem, hxmark⟩
        rw [hany] at hcontra
        cases hcontra
      rw [makeSummaryStrictCore, makeSummaryStrictCore, strictErrorMessage,
        strictErrorMessage, hnone, hnone']
      by_cases hb : base = ""
      · rw [if_neg (by simp [hb]), if_neg (by simp [hb]), tallyStrict_eq, tallyStrict_eq]
        have h1 : hasFailureLabel l = hasFailureLabel l' := any_eq_of_perm _ hperm
        have h2 : hasSuccessLabel l = hasSuccessLabel l' := any_eq_of_perm _ hperm
        rw [h1, h2]
        exact ⟨rfl, rfl, rfl⟩
      · rw [if_pos (by simp [hb]), if_pos (by simp [hb])]
        exact ⟨rfl, rfl, rfl⟩

theorem summary_perm_invariance_witness :
    makeSummaryCount "p" (RPCOutcome.response ⟨"", [⟨"org/a", "Success"⟩, ⟨"org/b", "Failure"⟩]⟩)
      = makeSummaryCount "p"
          (RPCOutcome.response ⟨"", [⟨"org/b", "Failure"⟩, ⟨"org/a", "Success"⟩]⟩) :=
  summary_perm_invariance.1 "p" "" _ _ (List.Perm.swap _ _ _)

/-- A list is a prefix of itself under the executable prefix check. -/
theorem isPrefixCheck_refl (l : List Char) : isPrefixCheck l l = true := by
  induction l with
  | nil => rfl
  | cons a as ih => simp [isPrefixCheck, ih]

/-- The executable substring check finds a suffix occurrence. -/
theorem isSubstrCheck_append (pre l : List Char) : isSubstrCheck l (pre ++ l) = true := by
  induction pre with
  | nil =>
    cases l with
    | nil => rfl
    | cons b bs => simp [isSubstrCheck, isPrefixCheck_refl]
  | cons p ps ih => simp [isSubstrCheck, ih]

/-- `strings.Contains(a ++ b, b)` holds. -/
theorem strContains_append_self (a b : String) : strContains (a ++ b) b = true := by
  show isSubstrCheck b.data (a ++ b).data = true
  rw [String.data_append]
  exact isSubstrCheck_append a.data b.data

/-- C6: in the stricter client, as soon as some repository's scan-result
label contains "error" or "failed" (case-insensitively), the summary is an
Error even though the call succeeded and the response itself carries no
error; the first such repository's scan result is quoted inside the error
message. -/
theorem strict_marker_short_circuits (p : String) (res : PolicyResponse) (r : PBRepo)
    (hmem : r ∈ res.repositories) (hmark : containsErrorMarker r = true)
    (herr : res.error = "") :
    (makeSummaryStrict p none res).error = true
    ∧ ∃ r0 ∈ res.repositories, containsErrorMarker r0 = true
        ∧ strContains (makeSummaryStrict p none res).errorMessage r0.scanResult = true := by
  have hbase : summaryBase none res = "" := by simp [summaryBase, herr]
  rcases Option.isSome_iff_exists.mp (List.find?_isSome.mpr ⟨r, hmem, hmark⟩) with ⟨r0, hr0⟩
  have hmem0 : r0 ∈ res.repositories := List.mem_of_find?_eq_some hr0
  have hmark0 : containsErrorMarker r0 = true := List.find?_some hr0
  have hmsg : strictErrorMessage (summaryBase none res) res.repositories
      = "" ++ " | Scan Result: " ++ r0.scanResult := by
    rw [hbase, strictErrorMessage, hr0]
  have hne : strictErrorMessage (summaryBase none res) res.repositories ≠ "" := by
    rw [hmsg]
    exact append_scan_result_ne_empty "" r0.scanResult
  constructor
  · show (makeSummaryStrictCore p (summaryBase none res) res.repositories).error = true
    rw [makeSummaryStrictCore, if_pos (by simp [hne])]
  · refine ⟨r0, hmem0, hmark0, ?_⟩
    show strContains
        (makeSummaryStrictCore p (summaryBase none res) res.repositories).errorMessage
        r0.scanResult = true
    rw [makeSummaryStrictCore, if_pos (by simp [hne])]
    show strContains (strictErrorMessage (summaryBase none res) res.repositories)
        r0.scanResult = true
    rw [hmsg]
    exact strContains_append_self ("" ++ " | Scan Result: ") r0.scanResult

theorem strict_marker_short_circuits_witness :
    (makeSummaryStrict "p" none ⟨"", [⟨"org/a", "Success"⟩, ⟨"org/b", "scan error: timeout"⟩]⟩).error
      = true := by
  have h := strict_marker_short_circuits "p"
    ⟨"", [⟨"org/a", "Success"⟩, ⟨"org/b", "scan error: timeout"⟩]⟩
    ⟨"org/b", "scan error: timeout"⟩ (by simp) (by decide) rfl
  exact h.1

/-- Appending permission entries one by one in the collaborator loop is the
`filterMap` of the per-collaborator entry builder. -/
theorem fetch_foldl_eq (gh : GithubData) (tm : List (String × String))
    (collabs : List GHUser) (acc : List RepositoryPermissions) :
    collabs.foldl
        (fun perms collab =>
          match gh.permissionLevel collab.login with
          | Except.error _ => perms
          | Except.ok role => perms ++ [entryFor tm collab role])
        acc
      = acc ++ collabs.filterMap
          (fun collab =>
            match gh.permissionLevel collab.login with
            | Except.error _ => none
            | Except.ok role => some (entryFor tm collab role)) := by
  induction collabs generalizing acc with
  | nil => simp
  | cons c cs ih =>
    cases hperm : gh.permissionLevel c.login with
    | error msg => simp [List.foldl_cons, List.filterMap_cons, hperm, ih]
    | ok role => simp [List.foldl_cons, List.filterMap_cons, hperm, ih]

/-- `FetchRepositoryPermissions`, characterised: when the collaborator fetch
succeeds, the result is one optional entry per collaborator in order —
present exactly when that collaborator's permission-level lookup
succeeds. -/
theorem fetchRepositoryPermissions_eq (gh : GithubData) (collabs : List GHUser)
    (hc : gh.collaborators = Except.ok collabs) :
    FetchRepositoryPermissions gh
      = collabs.filterMap
          (fun collab =>
            match gh.permissionLevel collab.login with
            | Except.error _ => none
            | Except.ok role =>
                some (entryFor (buildTeamMembers gh (fetchedTeams gh)) collab role)) := by
  simp only [FetchRepositoryPermissions, hc]
  exact fetch_foldl_eq gh _ collabs []

/-- `mapInsert` preserves any predicate on stored values that the inserted
value satisfies. -/
theorem mapInsert_values {P : String → Prop} (m : List (String × String)) (k v : String)
    (hm : ∀ q ∈ m, P q.2) (hv : P v) : ∀ q ∈ mapInsert m k v, P q.2 := by
  intro q hq
  rw [mapInsert] at hq
  rcases List.mem_append.mp hq with h | h
  · exact hm q (List.mem_of_mem_filter h)
  · rw [List.mem_singleton.mp h]
    exact hv

/-- Inserting all members of one team preserves a value predicate that the
team's slug satisfies. -/
theorem members_foldl_values {P : String → Prop} (slug : String) (hv : P slug) :
    ∀ (members : List GHUser) (m : List (String × String)),
      (∀ q ∈ m, P q.2) →
      ∀ q ∈ members.foldl (fun m member => mapInsert m member.login slug) m, P q.2 := by
  intro members
  induction members with
  | nil => exact fun m hm q hq => hm q hq
  | cons u us ih =>
    intro m hm q hq
    exact ih (mapInsert m u.login slug) (mapInsert_values m u.login slug hm hv) q hq

/-- Every value stored in the username-to-team map built from a team list
satisfies any predicate all those teams' slugs satisfy. -/
theorem teams_foldl_values (gh : GithubData) {P : String → Prop} :
    ∀ (teams : List GHTeam) (m : List (String × String)),
      (∀ q ∈ m, P q.2) → (∀ t ∈ teams, P t.slug) →
      ∀ q ∈ teams.foldl
          (fun m team =>
            match gh.teamMembers team.slug with
            | Except.error _ => m
            | Except.ok members =>
                members.foldl (fun m member => mapInsert m member.login team.slug) m)
          m, P q.2 := by
  intro teams
  induction teams with
  | nil => exact fun m hm _ q hq => hm q hq
  | cons t ts ih =>
    intro m hm hts q hq
    have ht : P t.slug := hts t (List.mem_cons_self t ts)
    have hts' : ∀ t' ∈ ts, P t'.slug := fun t' h => hts t' (List.mem_cons_of_mem _ h)
    cases hmem : gh.teamMembers t.slug with
    | error msg =>
      simp only [List.foldl_cons, hmem] at hq
      exact ih m hm hts' q hq
    | ok members =>
      simp only [List.foldl_cons, hmem] at hq
      exact ih _ (members_foldl_values t.slug ht members m hm) hts' q hq

/-- Every binding of the username-to-team map names the slug of a fetched
team. -/
theorem buildTeamMembers_mem (gh : GithubData) (q : String × String)
    (hq : q ∈ buildTeamMembers gh (fetchedTeams gh)) :
    ∃ t ∈ fetchedTeams gh, q.2 = t.slug := by
  unfold buildTeamMembers at hq
  exact @teams_foldl_values gh (fun v => ∃ t ∈ fetchedTeams gh, v = t.slug)
    (fetchedTeams gh) []
    (fun q hq => absurd hq (List.not_mem_nil q)) (fun t ht => ⟨t, ht, rfl⟩) q hq

/-- A successful association-list lookup exhibits a stored pair. -/
theorem mem_of_lookup_eq_some {tm : List (String × String)} {k v : String}
    (h : tm.lookup k = some v) : (k, v) ∈ tm := by
  rcases List.lookup_eq_some_iff.mp h with ⟨l₁, l₂, rfl, -⟩
  exact List.mem_append.mpr (Or.inr (List.mem_cons_self _ _))

/-- Shape of every permission entry's source: the literal "user", or "team:"
followed by the slug of one of the fetched teams. -/
theorem fetch_entry_source_shape (gh : GithubData) (e : RepositoryPermissions)
    (he : e ∈ FetchRepositoryPermissions gh) :
    e.source = "user" ∨ ∃ t ∈ fetchedTeams gh, e.source = "team:" ++ t.slug := by
  cases hc : gh.collaborators with
  | error msg =>
    simp only [FetchRepositoryPermissions, hc] at he
    exact absurd he (List.not_mem_nil e)
  | ok collabs =>
    rw [fetchRepositoryPermissions_eq gh collabs hc] at he
    rcases List.mem_filterMap.mp he with ⟨c, hcmem, hfc⟩
    cases hp : gh.permissionLevel c.login with
    | error m =>
      rw [hp] at hfc
      cases hfc
    | ok role =>
      rw [hp] at hfc
      have hentry : entryFor (buildTeamMembers gh (fetchedTeams gh)) c role = e :=
        Option.some.inj hfc
      cases hlook : (buildTeamMembers gh (fetchedTeams gh)).lookup c.login with
      | none =>
        left
        rw [← hentry]
        simp [entryFor, hlook]
      | some team =>
        right
        rcases buildTeamMembers_mem gh (c.login, team) (mem_of_lookup_eq_some hlook) with
          ⟨t, ht, hts⟩
        have hts' : team = t.slug := hts
        refine ⟨t, ht, ?_⟩
        rw [← hentry]
        simp only [entryFor, hlook]
        rw [hts']

/-- C7 counterexample: a repository whose detail fetch fails reaches the
oracle as the zero-valued record — name, full name and owner are all the
empty string and the permission list is empty — and is still evaluated (here
the empty result set yields the default Denied, written as "Failure"). -/
theorem failed_detail_fetch_reaches_oracle_unbuilt :
    scanRepository (Except.error "network timeout") ghEmptyFetch = emptyRepositoryInfo
    ∧ emptyRepositoryInfo.name = ""
    ∧ emptyRepositoryInfo.fullName = ""
    ∧ emptyRepositoryInfo.owner = ""
    ∧ emptyRepositoryInfo.permissions = []
    ∧ ScanOrganization
        [⟨Except.error "network timeout", ghEmptyFetch, OracleOutcome.result []⟩]
        = [{ emptyRepositoryInfo with scanResult := "Failure" }] :=
  ⟨rfl, rfl, rfl, rfl, rfl, rfl⟩

/-- C7 (amended): every permission entry handed to the oracle has source
"user" or "team:" followed by a fetched team's slug, and a record built from
a successful detail fetch carries that fetch's identity fields verbatim;
but a repository whose detail fetch failed reaches `evaluatePolicy` as the
zero-valued record (empty identity, no permissions), and usernames/slugs are
taken from upstream unvalidated rather than checked non-empty. -/
theorem access_record_shape :
    (∀ (gh : GithubData) (e : RepositoryPermissions), e ∈ FetchRepositoryPermissions gh →
        e.source = "user" ∨ ∃ t ∈ fetchedTeams gh, e.source = "team:" ++ t.slug)
    ∧ (∀ (d : RepoDetails) (gh : GithubData),
        (scanRepository (Except.ok d) gh).name = d.name
        ∧ (scanRepository (Except.ok d) gh).fullName = d.fullName
        ∧ (scanRepository (Except.ok d) gh).owner = d.ownerLogin)
    ∧ (∀ (msg : String) (gh : GithubData),
        scanRepository (Except.error msg) gh = emptyRepositoryInfo) := by
  refine ⟨fetch_entry_source_shape, ?_, ?_⟩
  · exact fun d gh => ⟨rfl, rfl, rfl⟩
  · exact fun msg gh => rfl

theorem access_record_shape_witness :
    (⟨"alice", "admin", "team:devs"⟩ : RepositoryPermissions).source = "user"
    ∨ ∃ t ∈ fetchedTeams ghTeamData,
        (⟨"alice", "admin", "team:devs"⟩ : RepositoryPermissions).source
          = "team:" ++ t.slug :=
  access_record_shape.1 ghTeamData ⟨"alice", "admin", "team:devs"⟩ (by decide)

/-- C8: a failed collaborator fetch yields an empty permission list and the
repository still flows through policy evaluation — its scan result is
decided by the oracle outcome alone; a failed team fetch only removes team
attribution, so every recorded entry's source degrades to "user". -/
theorem fetch_failures_degrade_gracefully :
    (∀ (gh : GithubData) (msg : String), gh.collaborators = Except.error msg →
        FetchRepositoryPermissions gh = [])
    ∧ (∀ (gh : GithubData) (msg : String) (d : RepoDetails) (oracle : OracleOutcome),
        gh.collaborators = Except.error msg →
        processRepository (scanRepository (Except.ok d) gh) oracle
          = { NormalizeRepoData d [] with
              scanResult := assignScanResult (evaluatePolicy oracle) })
    ∧ (∀ (gh : GithubData) (msg : String), gh.teams = Except.error msg →
        ∀ e ∈ FetchRepositoryPermissions gh, e.source = "user") := by
  have hempty : ∀ (gh : GithubData) (msg : String), gh.collaborators = Except.error msg →
      FetchRepositoryPermissions gh = [] := by
    intro gh msg h
    simp only [FetchRepositoryPermissions, h]
  refine ⟨hempty, ?_, ?_⟩
  · intro gh msg d oracle h
    rw [processRepository, scanRepository, hempty gh msg h]
  · intro gh msg h e he
    rcases fetch_entry_source_shape gh e he with huser | ⟨t, ht, -⟩
    · exact huser
    · rw [show fetchedTeams gh = [] from by simp [fetchedTeams, h]] at ht
      exact absurd ht (List.not_mem_nil t)

theorem fetch_failures_degrade_gracefully_witness :
    FetchRepositoryPermissions
        ⟨Except.error "collab fetch down", Except.ok [], fun _ => Except.ok [],
         fun _ => Except.ok ""⟩
      = [] :=
  fetch_failures_degrade_gracefully.1
    ⟨Except.error "collab fetch down", Except.ok [], fun _ => Except.ok [],
     fun _ => Except.ok ""⟩
    "collab fetch down" rfl

/-- `countP` only depends on the predicate's values on the list's members. -/
theorem countP_eq_of_agree {α : Type} (l : List α) (p q : α → Bool)
    (h : ∀ a ∈ l, p a = q a) : l.countP p = l.countP q := by
  induction l with
  | nil => rfl
  | cons a as ih =>
    rw [List.countP_cons, List.countP_cons, h a (List.mem_cons_self a as),
      ih (fun a' ha' => h a' (List.mem_cons_of_mem _ ha'))]

/-- Counting entries per username over the per-collaborator `filterMap`: each
entry carrying `login` comes from exactly one occurrence of `login` among
collaborators whose permission-level lookup succeeded — lookups may fail for
other collaborators in the same list. -/
theorem fetch_count_per_login (gh : GithubData) (tm : List (String × String))
    (collabs : List GHUser) (login : String) :
    ((collabs.filterMap
        (fun collab =>
          match gh.permissionLevel collab.login with
          | Except.error _ => none
          | Except.ok role => some (entryFor tm collab role))).filter
        (fun e => e.username == login)).length
      = collabs.countP
          (fun c => c.login == login &&
            match gh.permissionLevel c.login with
            | Except.ok _ => true
            | Except.error _ => false) := by
  induction collabs with
  | nil => rfl
  | cons c cs ih =>
    cases hperm : gh.permissionLevel c.login with
    | error msg =>
      simp only [List.filterMap_cons, hperm, List.countP_cons]
      rw [ih]
      simp [hperm]
    | ok role =>
      simp only [List.filterMap_cons, hperm, List.countP_cons]
      rw [List.filter_cons]
      by_cases hl : c.login = login
      · rw [if_pos (show ((entryFor tm c role).username == login) = true by
            simp [entryFor, hl])]
        simp [ih, hperm, hl]
      · rw [if_neg (by simp [entryFor, hl])]
        simp [ih, hperm, hl]

/-- C9 (amended): when the collaborator fetch succeeds and collaborator
logins are distinct, then for each collaborator — in a list that may mix
succeeding and failing lookups — a succeeding permission-level lookup yields
exactly one recorded entry, whose source is "team:" plus the slug found in
the username-to-team map when the map knows the login (even if the
collaborator also has direct access) and "user" otherwise, while a failing
lookup yields no entry for that collaborator at all. -/
theorem one_entry_per_collaborator (gh : GithubData) (collabs : List GHUser)
    (hc : gh.collaborators = Except.ok collabs)
    (hnodup : (collabs.map GHUser.login).Nodup) :
    ∀ c ∈ collabs,
      ((∃ role, gh.permissionLevel c.login = Except.ok role) →
          ((FetchRepositoryPermissions gh).filter
              (fun e => e.username == c.login)).length = 1
          ∧ ∀ e ∈ FetchRepositoryPermissions gh, e.username = c.login →
              e.source =
                match (buildTeamMembers gh (fetchedTeams gh)).lookup c.login with
                | some team => "team:" ++ team
                | none => "user")
      ∧ (∀ msg, gh.permissionLevel c.login = Except.error msg →
          ((FetchRepositoryPermissions gh).filter
              (fun e => e.username == c.login)).length = 0) := by
  intro c hcmem
  have hinj : ∀ c' ∈ collabs, c'.login = c.login → c' = c := by
    intro c' _ h
    cases c' with
    | mk l' =>
      cases c with
      | mk l => exact congrArg GHUser.mk h
  constructor
  · intro hsucc
    rcases hsucc with ⟨role, hrole⟩
    constructor
    · rw [fetchRepositoryPermissions_eq gh collabs hc,
        fetch_count_per_login gh _ collabs c.login]
      have hagree : ∀ c' ∈ collabs,
          (c'.login == c.login &&
            match gh.permissionLevel c'.login with
            | Except.ok _ => true
            | Except.error _ => false) = (c' == c) := by
        intro c' hc'
        by_cases h : c'.login = c.login
        · have hcc : c' = c := hinj c' hc' h
          subst hcc
          simp [hrole]
        · have hne : (c' == c) = false := by
            apply beq_eq_false_iff_ne.mpr
            intro hcc
            exact h (by rw [hcc])
          simp [h, hne]
      rw [countP_eq_of_agree collabs _ _ hagree, ← List.count_eq_countP]
      exact List.count_eq_one_of_mem (hnodup.of_map _) hcmem
    · intro e he hue
      rw [fetchRepositoryPermissions_eq gh collabs hc] at he
      rcases List.mem_filterMap.mp he with ⟨c', hc'mem, hfc⟩
      cases hp : gh.permissionLevel c'.login with
      | error m =>
        rw [hp] at hfc
        cases hfc
      | ok role' =>
        rw [hp] at hfc
        have hentry : entryFor (buildTeamMembers gh (fetchedTeams gh)) c' role' = e :=
          Option.some.inj hfc
        have hlogin : c'.login = c.login := by
          rw [← hue, ← hentry]
          rfl
        rw [← hentry]
        simp only [entryFor]
        rw [hlogin]
  · intro msg hmsg
    rw [fetchRepositoryPermissions_eq gh collabs hc,
      fetch_count_per_login gh _ collabs c.login]
    have hagree : ∀ c' ∈ collabs,
        (c'.login == c.login &&
          match gh.permissionLevel c'.login with
          | Except.ok _ => true
          | Except.error _ => false) = false := by
      intro c' hc'
      by_cases h : c'.login = c.login
      · have hcc : c' = c := hinj c' hc' h
        subst hcc
        simp [hmsg]
      · simp [h]
    rw [countP_eq_of_agree collabs _ _ hagree]
    exact List.countP_eq_zero.mpr (fun a _ hfalse => by cases hfalse)

theorem one_entry_per_collaborator_witness :
    ((FetchRepositoryPermissions ghMixedPerm).filter
        (fun e => e.username == (⟨"alice"⟩ : GHUser).login)).length = 1
    ∧ ((FetchRepositoryPermissions ghMixedPerm).filter
        (fun e => e.username == (⟨"bob"⟩ : GHUser).login)).length = 0 :=
  ⟨((one_entry_per_collaborator ghMixedPerm [⟨"alice"⟩, ⟨"bob"⟩] rfl (by decide)
      ⟨"alice"⟩ (by decide)).1 ⟨"admin", rfl⟩).1,
   (one_entry_per_collaborator ghMixedPerm [⟨"alice"⟩, ⟨"bob"⟩] rfl (by decide)
      ⟨"bob"⟩ (by decide)).2 "boom" rfl⟩

/-- C9 counterexample: in a list mixing a succeeding and a failing
permission-level lookup, the failing collaborator ("bob") is skipped by
`continue` and gets no entry at all — not the "exactly one" the claim demands
for every collaborator — while "alice" is still recorded. -/
theorem failed_permission_lookup_drops_collaborator :
    ghMixedPerm.collaborators = Except.ok [⟨"alice"⟩, ⟨"bob"⟩]
    ∧ FetchRepositoryPermissions ghMixedPerm = [⟨"alice", "admin", "user"⟩] :=
  ⟨rfl, rfl⟩

end GithubScanner
